import Mathlib

/-!
A shallow embedding of `general_csp.py`: a generic CSP backtracking solver
with MRV/degree/LCV heuristics and an AC-3 style propagation step, plus the
three problem builders and the JSON persistence layer.

Modelling conventions:
* Python values appearing in this program (ints, strings, bools, pairs of
  ints used as board positions, lists of ints/strings, sets of strings) are
  the inductive `PyVal`; Python `==` is `pyEq` (tuples never equal lists,
  sets compare as sets, bools compare equal to 0/1).
* Python dicts keyed by strings are association lists with `lookupA` /
  `insertA` (insert overwrites in place, preserving key order, as dicts do).
* A constraint dict is a record of optional fields; an absent field models
  an absent key.  Arithmetic expression strings are modelled by the small
  AST `PExpr`; `evalExpr` models `eval` over the assignment as locals, with
  `none` standing for a raised NameError/TypeError.
* Fallible Python code returns `Except String α` (the string names the
  exception class) and unbounded loops take explicit fuel, returning
  `Option` with `none` for "needs more steps"; a `some` result is the value
  the Python run returns.
-/

inductive PyVal where
  | int (n : Int)
  | str (s : String)
  | bool (b : Bool)
  | intPair (r c : Int)
  | intList (l : List Int)
  | strList (l : List String)
  | strSet (l : List String)
deriving DecidableEq, Repr

/-- Python `==` on the values this program manipulates: numeric values
compare across `int`/`bool`, tuples are never equal to lists, sets compare
as sets (order-insensitively). -/
def pyEq : PyVal → PyVal → Bool
  | .int a, .int b => a == b
  | .int a, .bool b => a == (if b then 1 else 0)
  | .bool a, .int b => (if a then (1 : Int) else 0) == b
  | .bool a, .bool b => a == b
  | .str a, .str b => a == b
  | .intPair a b, .intPair c d => a == c && b == d
  | .intList a, .intList b => a == b
  | .strList a, .strList b => a == b
  | .strSet a, .strSet b => a.all (· ∈ b) && b.all (· ∈ a)
  | _, _ => false

/-- Python truthiness of a value (`if not eval(...)`). -/
def truthy : PyVal → Bool
  | .int n => n != 0
  | .str s => s != ""
  | .bool b => b
  | .intPair _ _ => true
  | .intList l => !l.isEmpty
  | .strList l => !l.isEmpty
  | .strSet l => !l.isEmpty

/-- The arithmetic expression strings of the cryptarithmetic constraints,
as a small AST (`"O + O == R + 10 * x1"` and the like). -/
inductive PExpr where
  | var (s : String)
  | lit (n : Int)
  | add (a b : PExpr)
  | mul (a b : PExpr)
  | eqE (a b : PExpr)
deriving DecidableEq, Repr

/-- A constraint dict; an absent key is `none`.  `variable1`/`variable2`
hold arbitrary values because the map-coloring builder stores singleton
sets there. -/
structure Constraint where
  type : Option String := none
  variable1 : Option PyVal := none
  variable2 : Option PyVal := none
  vars : Option (List String) := none  -- the Python key "variables"
  expression : Option PExpr := none
deriving DecidableEq, Repr

/-- The `(variables, domains, constraints)` triple the solver consumes. -/
structure Problem where
  vars : List String  -- the Python "variables" list
  domains : List (String × List PyVal)
  constraints : List Constraint
deriving DecidableEq, Repr

/-- Dict lookup (first matching key; inserts keep keys unique). -/
def lookupA {α : Type} : List (String × α) → String → Option α
  | [], _ => none
  | (k, v) :: rest, x => if x = k then some v else lookupA rest x

/-- Dict update `d[x] = v`: overwrite in place if the key exists, else
append, as Python dicts do. -/
def insertA {α : Type} : List (String × α) → String → α → List (String × α)
  | [], x, v => [(x, v)]
  | (k, w) :: rest, x, v =>
    if x = k then (k, v) :: rest else (k, w) :: insertA rest x v

/-- `self.domains[var]`, defaulting to the empty domain for an absent key
(builder problems always carry every variable as a key). -/
def domOf (doms : List (String × List PyVal)) (v : String) : List PyVal :=
  (lookupA doms v).getD []

/-- `eval(expression, {}, temp_assignment)`: `none` models a raised
exception (NameError for an unassigned variable, TypeError for bad
operands). -/
def evalExpr : PExpr → List (String × PyVal) → Option PyVal
  | .var s, env => lookupA env s
  | .lit n, _ => some (.int n)
  | .add a b, env => do
    let x ← evalExpr a env
    let y ← evalExpr b env
    match x, y with
    | .int m, .int n => some (.int (m + n))
    | .int m, .bool c => some (.int (m + (if c then 1 else 0)))
    | .bool c, .int n => some (.int ((if c then 1 else 0) + n))
    | .bool c, .bool d => some (.int ((if c then 1 else 0) + (if d then 1 else 0)))
    | _, _ => none
  | .mul a b, env => do
    let x ← evalExpr a env
    let y ← evalExpr b env
    match x, y with
    | .int m, .int n => some (.int (m * n))
    | .int m, .bool c => some (.int (m * (if c then 1 else 0)))
    | .bool c, .int n => some (.int ((if c then 1 else 0) * n))
    | .bool c, .bool d => some (.int ((if c then 1 else 0) * (if d then 1 else 0)))
    | _, _ => none
  | .eqE a b, env => do
    let x ← evalExpr a env
    let y ← evalExpr b env
    some (.bool (pyEq x y))

/-- `v[i]` for the index accesses of the queen lambdas; `none` models a
TypeError on an unindexable value. -/
def pyIndex : PyVal → Nat → Option PyVal
  | .intPair a _, 0 => some (.int a)
  | .intPair _ b, 1 => some (.int b)
  | .intPair _ _, _ => none
  | .intList l, i => (l.get? i).map .int
  | .strList l, i => (l.get? i).map .str
  | .str s, i => (s.data.get? i).map (fun ch => .str (String.mk [ch]))
  | _, _ => none

/-- `constraint_checks_queen[constraint["type"]](val1, val2)`: the three
row/column/diagonal lambdas, with a KeyError for any other type tag and a
TypeError when the operands cannot be indexed or subtracted. -/
def queen_check (ty : Option String) (v1 v2 : PyVal) : Except String Bool :=
  match ty with
  | some "row-different" =>
    match pyIndex v1 0, pyIndex v2 0 with
    | some a, some b => .ok (!pyEq a b)
    | _, _ => .error "TypeError"
  | some "column-different" =>
    match pyIndex v1 1, pyIndex v2 1 with
    | some a, some b => .ok (!pyEq a b)
    | _, _ => .error "TypeError"
  | some "diagonal-different" =>
    match pyIndex v1 0, pyIndex v2 0, pyIndex v1 1, pyIndex v2 1 with
    | some (.int a), some (.int b), some (.int c), some (.int d) =>
      .ok ((a - b).natAbs != (c - d).natAbs)
    | _, _, _, _ => .error "TypeError"
  | _ => .error "KeyError"

/-- `all(x)` for the stray `all(eval(...))` call: iterating a non-iterable
raises TypeError (`none`); over an iterable it is the conjunction of the
truthiness of the elements. -/
def evalAll : PyVal → Option Bool
  | .intList l => some (l.all (fun n => n != 0))
  | .strList l => some (l.all (fun s => s != ""))
  | .strSet l => some (l.all (fun s => s != ""))
  | .str _ => some true
  | .intPair a b => some (a != 0 && b != 0)
  | _ => none

/-- One pass of the `for constraint in self.constraints` loop of
`_is_consistent`, over the remaining constraints, with `temp` the merged
`{**assignment, variable: value}` dict. -/
def is_consistent_loop (vars : List String) (temp : List (String × PyVal))
    (x : String) : List Constraint → Except String Bool
  | [] => .ok true
  | c :: rest =>
    match c.variable1, c.variable2 with
    | some var1, some var2 =>
      if pyEq (.str x) var1 || pyEq (.str x) var2 then
        -- other_var = var2 if var1 == variable else var1
        let other := if pyEq var1 (.str x) then var2 else var1
        match other with
        | .str otherName =>
          match lookupA temp otherName with
          | some _ =>
            -- val1, val2 = temp_assignment[var1], temp_assignment[other_var]
            -- note: val1 is read from var1 even when the checked variable
            -- is var2, so both reads can hit the same key
            let val1? : Option PyVal :=
              match var1 with
              | .str s => lookupA temp s
              | _ => none
            match val1?, lookupA temp otherName with
            | some val1, some val2 =>
              if "Q[" ∈ vars then
                match queen_check c.type val1 val2 with
                | .error e => .error e
                | .ok true => is_consistent_loop vars temp x rest
                | .ok false => .ok false
              else if "WA" ∈ vars then
                if pyEq val1 val2 then .ok false
                else is_consistent_loop vars temp x rest
              else if "F" ∈ vars then
                -- try: if "expression" in c: if all(eval(...)): return True
                -- except: pass
                match c.expression with
                | some e =>
                  match (evalExpr e temp).bind evalAll with
                  | some true => .ok true
                  | _ => is_consistent_loop vars temp x rest
                | none => is_consistent_loop vars temp x rest
              else .error "ValueError"
            | _, _ => .error "KeyError"
          | none => is_consistent_loop vars temp x rest
        | _ =>
          -- `other_var in temp_assignment` on an unhashable value raises
          .error "TypeError"
      else is_consistent_loop vars temp x rest
    | _, _ =>
      match c.vars with
      | some vs =>
        if x ∈ vs then
          if c.type = some "different" then
            if vs.any (fun other =>
                other != x &&
                match lookupA temp other, lookupA temp x with
                | some w, some v => pyEq v w
                | _, _ => false) then .ok false
            else is_consistent_loop vars temp x rest
          else
            match c.expression with
            | some e =>
              -- try: if not eval(...): return False  /  except: return False
              match evalExpr e temp with
              | some r =>
                if truthy r then is_consistent_loop vars temp x rest
                else .ok false
              | none => .ok false
            | none => is_consistent_loop vars temp x rest
        else is_consistent_loop vars temp x rest
      | none => is_consistent_loop vars temp x rest

/-- `_is_consistent(assignment, variable, value)`. -/
def is_consistent (vars : List String) (cs : List Constraint)
    (assignment : List (String × PyVal)) (x : String) (value : PyVal) :
    Except String Bool :=
  is_consistent_loop vars (insertA assignment x value) x cs

instance {ε α : Type} [DecidableEq ε] [DecidableEq α] :
    DecidableEq (Except ε α) := fun x y =>
  match x, y with
  | .error a, .error b =>
    if h : a = b then isTrue (by rw [h]) else isFalse (fun hc => by
      cases hc; exact h rfl)
  | .ok a, .ok b =>
    if h : a = b then isTrue (by rw [h]) else isFalse (fun hc => by
      cases hc; exact h rfl)
  | .error _, .ok _ => isFalse (fun hc => by cases hc)
  | .ok _, .error _ => isFalse (fun hc => by cases hc)

/-- Insert into a key-sorted list, keeping earlier elements first on key
ties: the recursion behind `sorted_by`. -/
def insort {α : Type} (key : α → Nat) (a : α) : List α → List α
  | [] => [a]
  | b :: bs => if key a ≤ key b then a :: b :: bs else b :: insort key a bs

/-- Python `sorted(l, key=key)`: a stable ascending sort by an integer key
(extensionally, any stable sort; realised as insertion sort). -/
def sorted_by {α : Type} (key : α → Nat) : List α → List α
  | [] => []
  | a :: as' => insort key a (sorted_by key as')

/-- Python `max(pairs-of-element-and-key)`: the first element attaining the
maximal key; `none` on an empty list models the ValueError `max([])`. -/
def maxByKey {α : Type} : List (α × Nat) → Option α
  | [] => none
  | (a, k) :: rest => some (maxByKeyGo a k rest)
where maxByKeyGo (best : α) (bestKey : Nat) : List (α × Nat) → α
  | [] => best
  | (a, k) :: rest =>
    if bestKey < k then maxByKeyGo a k rest else maxByKeyGo best bestKey rest

/-- `set.add` on the neighbour set, modelled as first-occurrence-order
de-duplicated lists. -/
def addNb (l : List String) (s : String) : List String :=
  if s ∈ l then l else l ++ [s]

/-- One constraint of the `_neighbours` loop.  The membership test
`var2 not in neighbours` hashes the other reference, so a non-string
reference reached there raises TypeError. -/
def nbStep (x : String) (acc : List String) (c : Constraint) :
    Except String (List String) :=
  match c.variable1, c.variable2 with
  | some var1, some var2 =>
    if pyEq (.str x) var1 then
      match var2 with
      | .str s2 => .ok (addNb acc s2)
      | _ => .error "TypeError"
    else if pyEq (.str x) var2 then
      match var1 with
      | .str s1 => .ok (addNb acc s1)
      | _ => .error "TypeError"
    else .ok acc
  | _, _ =>
    match c.vars with
    | some vs =>
      if x ∈ vs then
        .ok (vs.foldl (fun l w => if w ≠ x then addNb l w else l) acc)
      else .ok acc
    | none => .ok acc

/-- `_neighbours(variable)`: the distinct variables co-referenced with `x`
by some constraint (set iteration modelled as first-occurrence order). -/
def neighbours (cs : List Constraint) (x : String) :
    Except String (List String) :=
  cs.foldlM (nbStep x) []

/-- `_minimum_remaining_variables`: the unassigned variables sorted
ascending (stably) by current domain size. -/
def minimum_remaining_variables (doms : List (String × List PyVal))
    (unassigned : List String) : List String :=
  sorted_by (fun v => (domOf doms v).length) unassigned

/-- `_degree_heuristic`: the first variable of the list attaining the
largest neighbour count (an error propagates a raised neighbour
computation; `max` of an empty list raises ValueError). -/
def degree_heuristic (cs : List Constraint) (unassigned : List String) :
    Except String String := do
  let pairs ← unassigned.mapM (fun v => do
    let ns ← neighbours cs v
    pure (v, ns.length))
  match maxByKey pairs with
  | some v => .ok v
  | none => .error "ValueError"

/-- The neighbour count a variable contributes to the degree heuristic
(zero is never consulted when the computation raises). -/
def nbLen (cs : List Constraint) (u : String) : Nat :=
  match neighbours cs u with
  | .ok ns => ns.length
  | .error _ => 0

/-- The unassigned variables, in declaration order. -/
def unassignedVars (vars : List String) (assignment : List (String × PyVal)) :
    List String :=
  vars.filter (fun v => (lookupA assignment v).isNone)

/-- `_select_unassigned_variable`: MRV with the degree heuristic as tie
break over the full unassigned list.  `mrv_variable[0]` on an empty list
raises IndexError. -/
def select_unassigned_variable (vars : List String) (cs : List Constraint)
    (doms : List (String × List PyVal)) (assignment : List (String × PyVal)) :
    Except String String :=
  let unassigned := unassignedVars vars assignment
  let mrv := minimum_remaining_variables doms unassigned
  match mrv with
  | [] => .error "IndexError"
  | m :: _ =>
    let candidates := mrv.filter
      (fun v => (domOf doms v).length = (domOf doms m).length)
    if candidates.length > 1 then degree_heuristic cs unassigned
    else
      match candidates with
      | [] => .error "IndexError"
      | c :: _ => .ok c

/-- `_count_conflict`: `variable in constraint` tests the dict KEYS, and a
hit then evaluates `constraint[0]`, an integer lookup on a string-keyed
dict, raising KeyError. -/
def count_conflict (cs : List Constraint) (x : String) : Except String Nat :=
  go cs 0
where
  hasKeyNamed (c : Constraint) (x : String) : Bool :=
    (x == "type" && c.type.isSome) ||
    (x == "variable1" && c.variable1.isSome) ||
    (x == "variable2" && c.variable2.isSome) ||
    (x == "variables" && c.vars.isSome) ||
    (x == "expression" && c.expression.isSome)
  go : List Constraint → Nat → Except String Nat
    | [], acc => .ok acc
    | c :: rest, acc =>
      if hasKeyNamed c x then .error "KeyError" else go rest acc

/-- `_least_constrained_value`: the current domain sorted (stably)
ascending by `_count_conflict`; a raised key computation propagates. -/
def least_constrained_value (cs : List Constraint)
    (doms : List (String × List PyVal)) (x : String) :
    Except String (List PyVal) := do
  let keyed ← (domOf doms x).mapM (fun v => do
    let k ← count_conflict cs x
    pure (v, k))
  pure ((sorted_by (fun p => p.2) keyed).map (fun p => p.1))

/-- `_order_domain_value`. -/
def order_domain_value (cs : List Constraint)
    (doms : List (String × List PyVal)) (x : String) :
    Except String (List PyVal) :=
  least_constrained_value cs doms x

/-- `any(self._is_consistent({var1: val, var2: val2}, var1, val) for val2
in ...)`: short-circuiting, propagating a raised check. -/
def anySupport (vars : List String) (cs : List Constraint) (var1 var2 : String)
    (val : PyVal) : List PyVal → Except String Bool
  | [] => .ok false
  | val2 :: rest =>
    match is_consistent vars cs (insertA [(var1, val)] var2 val2) var1 val with
    | .error e => .error e
    | .ok true => .ok true
    | .ok false => anySupport vars cs var1 var2 val rest

/-- The `for val in self.domains[var1]` loop of `_remove_value`: Python
iterates by an internal index over the very list it mutates, so
`list.remove` makes the iterator skip the element that slides into the
removed slot.  The structural fuel only bounds the iteration count: the
index grows by one per step while the list never grows, so the
`l.length + 1` passed by `remove_value` always reaches the exit check
first and the fuel-exhausted branch is dead. -/
def remove_loop (vars : List String) (cs : List Constraint) (var1 var2 : String)
    (dom2 : List PyVal) :
    Nat → List PyVal → Nat → Except String (List PyVal × Bool)
  | 0, l, _ => .ok (l, false)
  | fuel + 1, l, i =>
    if h : i < l.length then
      let val := l.get ⟨i, h⟩
      match anySupport vars cs var1 var2 val dom2 with
      | .error e => .error e
      | .ok true => remove_loop vars cs var1 var2 dom2 fuel l (i + 1)
      | .ok false =>
        match remove_loop vars cs var1 var2 dom2 fuel (l.erase val) (i + 1) with
        | .error e => .error e
        | .ok (l', _) => .ok (l', true)
    else .ok (l, false)

/-- Write back a (possibly shrunk) domain list: `self.domains[var1] = ...`
performed implicitly by the in-place `list.remove` calls. -/
def setDom (doms : List (String × List PyVal)) (k : String) (l : List PyVal) :
    List (String × List PyVal) :=
  doms.map (fun p => if p.1 = k then (k, l) else p)

/-- `_remove_value(var1, var2)`: revise `var1`'s domain against `var2`,
returning the updated domains and whether anything was removed. -/
def remove_value (vars : List String) (cs : List Constraint)
    (doms : List (String × List PyVal)) (var1 var2 : String) :
    Except String (List (String × List PyVal) × Bool) :=
  match remove_loop vars cs var1 var2 (domOf doms var2)
      ((domOf doms var1).length + 1) (domOf doms var1) 0 with
  | .error e => .error e
  | .ok (l', removed) => .ok (setDom doms var1 l', removed)

/-- The worklist loop of `_constraint_propagation`, with fuel: `none` means
the run needs more steps, `some (.error e)` a raised exception, and
`some (.ok (doms, b))` a normal return of `b` with final domains `doms`. -/
def cp_loop (vars : List String) (cs : List Constraint)
    (assignment : List (String × PyVal)) :
    Nat → List (String × String) → List (String × List PyVal) →
    Option (Except String (List (String × List PyVal) × Bool))
  | 0, _, _ => none
  | _ + 1, [], doms => some (.ok (doms, true))
  | fuel + 1, (var1, var2) :: rest, doms =>
    match remove_value vars cs doms var1 var2 with
    | .error e => some (.error e)
    | .ok (doms', removed) =>
      if removed then
        if domOf doms' var1 = [] then some (.ok (doms', false))
        else
          match neighbours cs var1 with
          | .error e => some (.error e)
          | .ok ns =>
            let added := (ns.filter (fun nb =>
              nb ≠ var2 ∧ (lookupA assignment nb).isNone)).map (fun nb => (nb, var1))
            cp_loop vars cs assignment fuel (rest ++ added) doms'
      else cp_loop vars cs assignment fuel rest doms'

/-- `_constraint_propagation(assignment)`: build the initial queue of all
`(variable, neighbour)` pairs, then run the worklist loop. -/
def constraint_propagation (pfuel : Nat) (vars : List String)
    (cs : List Constraint) (doms : List (String × List PyVal))
    (assignment : List (String × PyVal)) :
    Option (Except String (List (String × List PyVal) × Bool)) :=
  match vars.mapM (fun v => (neighbours cs v).map (fun ns => ns.map (fun w => (v, w)))) with
  | .error e => some (.error e)
  | .ok qs => cp_loop vars cs assignment pfuel qs.flatten doms

/-- `_is_complete(assignment)`. -/
def is_complete (vars : List String) (assignment : List (String × PyVal)) :
    Bool :=
  vars.all (fun v => (lookupA assignment v).isSome)

/-- A solver outcome: the Python return values `assignment-dict` or
`False`. -/
inductive BTR where
  | sol (a : List (String × PyVal))
  | fail
deriving DecidableEq, Repr

/-- The `for value in self._order_domain_value(...)` loop of
`_recursive_backtracking`, parametrised over the recursive call at one
fuel level down.  Assignment mutation and rollback (`assignment[var] =
value` / `del assignment[var]`) are modelled persistently: each failed
branch resumes from the caller's assignment, which is what the strictly
nested insert/delete discipline of the source produces.  Domains mutated
by propagation are threaded on regardless of branch failure, as in the
source, which never restores them. -/
def rb_loop (pfuel : Nat) (vars : List String) (cs : List Constraint)
    (recurse : List (String × List PyVal) → List (String × PyVal) → Nat →
      Option (Except String (BTR × List (String × List PyVal) × Nat)))
    (var : String) (assignment : List (String × PyVal)) :
    List PyVal → List (String × List PyVal) → Nat →
    Option (Except String (BTR × List (String × List PyVal) × Nat))
  | [], doms, count => some (.ok (.fail, doms, count))
  | v :: rest, doms, count =>
    match is_consistent vars cs assignment var v with
    | .error e => some (.error e)
    | .ok false => rb_loop pfuel vars cs recurse var assignment rest doms count
    | .ok true =>
      let a' := insertA assignment var v
      match constraint_propagation pfuel vars cs doms a' with
      | none => none
      | some (.error e) => some (.error e)
      | some (.ok (doms', false)) =>
        rb_loop pfuel vars cs recurse var assignment rest doms' count
      | some (.ok (doms', true)) =>
        match recurse doms' a' count with
        | none => none
        | some (.error e) => some (.error e)
        | some (.ok (.sol s, doms'', count')) => some (.ok (.sol s, doms'', count'))
        | some (.ok (.fail, doms'', count')) =>
          rb_loop pfuel vars cs recurse var assignment rest doms'' count'

/-- `_recursive_backtracking(assignment)`, with `count` the running
`self.expanded_nodes` and recursion depth bounded by fuel. -/
def recursive_backtracking (pfuel : Nat) (vars : List String)
    (cs : List Constraint) :
    Nat → List (String × List PyVal) → List (String × PyVal) → Nat →
    Option (Except String (BTR × List (String × List PyVal) × Nat))
  | 0, _, _, _ => none
  | fuel + 1, doms, assignment, count =>
    let count := count + 1
    if is_complete vars assignment then some (.ok (.sol assignment, doms, count))
    else
      match select_unassigned_variable vars cs doms assignment with
      | .error e => some (.error e)
      | .ok var =>
        -- the source then tests `var is None`; the selection either raises
        -- or returns a variable, so that branch is dead
        match order_domain_value cs doms var with
        | .error e => some (.error e)
        | .ok values =>
          rb_loop pfuel vars cs
            (recursive_backtracking pfuel vars cs fuel) var assignment
            values doms count

/-- `backtracking_search()` on a problem triple, from the empty assignment
and a zero node counter. -/
def backtracking_search (pfuel fuel : Nat) (p : Problem) :
    Option (Except String (BTR × List (String × List PyVal) × Nat)) :=
  recursive_backtracking pfuel p.vars p.constraints fuel p.domains [] 0

/-- `n_queens_problem(n)`: note the builder names its variables `Q[i]`
but the constraints reference `Qi` (no brackets). -/
def n_queens_problem (n : Nat) : Problem :=
  let vlist := (List.range n).map (fun i => "Q[" ++ toString (i + 1) ++ "]")
  let domains := vlist.map (fun q =>
    (q, (List.range n).flatMap (fun row =>
      (List.range n).map (fun col =>
        PyVal.intPair (Int.ofNat row) (Int.ofNat col)))))
  let constraints := (List.range n).flatMap (fun i =>
    (List.range' (i + 1) (n - (i + 1))).flatMap (fun j =>
      [{ type := some "row-different",
         variable1 := some (.str ("Q" ++ toString (i + 1))),
         variable2 := some (.str ("Q" ++ toString (j + 1))) },
       { type := some "column-different",
         variable1 := some (.str ("Q" ++ toString (i + 1))),
         variable2 := some (.str ("Q" ++ toString (j + 1))) },
       { type := some "diagonal-different",
         variable1 := some (.str ("Q" ++ toString (i + 1))),
         variable2 := some (.str ("Q" ++ toString (j + 1))) }]))
  ⟨vlist, domains, constraints⟩

/-- `map_coloring_problem(n)`: the binary constraints store singleton SETS
`{var1}` / `{var2}` as their variable references. -/
def map_coloring_problem (n : Nat) : Problem :=
  let vlist := ["WA", "NT", "Q", "NSW", "V", "SA", "T"]
  let domains := vlist.map (fun region =>
    (region, (List.range n).map (fun i => PyVal.str ("c" ++ toString (i + 1)))))
  let constraints := vlist.flatMap (fun var1 =>
    vlist.filterMap (fun var2 =>
      if var1 ≠ var2 then
        some { type := some "color-different",
               variable1 := some (.strSet [var1]),
               variable2 := some (.strSet [var2]) }
      else none))
  ⟨vlist, domains, constraints⟩

/-- Shorthand for building the cryptarithmetic expression ASTs. -/
def pv (s : String) : PExpr := .var s

/-- One column-sum constraint `a + b + carryIn == out + 10 * carryOut`
(with optional carry-in). -/
def sumC (e : PExpr) : Constraint := { type := some "sum", expression := some e }

/-- `cryptarithmethic_problem(n)` (source spelling); `none` models the
`ValueError` raised for `n > 3`.  The carry list `x{i+1} for i in
range(1, n+2)` starts at `x2`, so `x1` is never declared. -/
def cryptarithmethic_problem (n : Nat) : Option Problem :=
  let carry := (List.range' 1 (n + 1)).map (fun i => "x" ++ toString (i + 1))
  let mkDoms (letters : List String) : List (String × List PyVal) :=
    letters.map (fun letter =>
      (letter, if letter ≠ "T" then
        (List.range 10).map (fun i => PyVal.int (Int.ofNat i))
      else (List.range' 1 9).map (fun i => PyVal.int (Int.ofNat i))))
      ++ carry.map (fun x => (x, [PyVal.int 0, PyVal.int 1]))
  match n with
  | 0 =>
    let letters := ["F", "R", "O", "T"]
    some ⟨letters ++ carry, mkDoms letters,
      [sumC (.eqE (.add (pv "O") (pv "O")) (.add (pv "R") (.mul (.lit 10) (pv "x1")))),
       sumC (.eqE (.add (.add (pv "T") (pv "T")) (pv "x1"))
                  (.add (pv "O") (.mul (.lit 10) (pv "x2")))),
       sumC (.eqE (pv "F") (pv "x2")),
       { type := some "different", vars := some (letters ++ carry) }]⟩
  | 1 =>
    let letters := ["F", "R", "O", "T", "W"]
    some ⟨letters ++ carry, mkDoms letters,
      [sumC (.eqE (.add (pv "O") (pv "O")) (.add (pv "R") (.mul (.lit 10) (pv "x1")))),
       sumC (.eqE (.add (.add (pv "W") (pv "W")) (pv "x1"))
                  (.add (pv "W") (.mul (.lit 10) (pv "x2")))),
       sumC (.eqE (.add (.add (pv "T") (pv "T")) (pv "x2"))
                  (.add (pv "O") (.mul (.lit 10) (pv "x3")))),
       sumC (.eqE (pv "F") (pv "x3")),
       { type := some "different", vars := some (letters ++ carry) }]⟩
  | 2 =>
    let letters := ["F", "R", "O", "T", "W", "X"]
    some ⟨letters ++ carry, mkDoms letters,
      [sumC (.eqE (.add (pv "O") (pv "O")) (.add (pv "R") (.mul (.lit 10) (pv "x1")))),
       sumC (.eqE (.add (.add (pv "W") (pv "W")) (pv "x1"))
                  (.add (pv "X") (.mul (.lit 10) (pv "x2")))),
       sumC (.eqE (.add (.add (pv "X") (pv "X")) (pv "x2"))
                  (.add (pv "W") (.mul (.lit 10) (pv "x3")))),
       sumC (.eqE (.add (.add (pv "T") (pv "T")) (pv "x3"))
                  (.add (pv "O") (.mul (.lit 10) (pv "x4")))),
       sumC (.eqE (pv "F") (pv "x4")),
       { type := some "different", vars := some (letters ++ carry) }]⟩
  | 3 =>
    let letters := ["F", "R", "O", "T", "W", "X", "Y"]
    some ⟨letters ++ carry, mkDoms letters,
      [sumC (.eqE (.add (pv "O") (pv "O")) (.add (pv "R") (.mul (.lit 10) (pv "x1")))),
       sumC (.eqE (.add (.add (pv "W") (pv "W")) (pv "x1"))
                  (.add (pv "Y") (.mul (.lit 10) (pv "x2")))),
       sumC (.eqE (.add (.add (pv "X") (pv "X")) (pv "x2"))
                  (.add (pv "X") (.mul (.lit 10) (pv "x3")))),
       sumC (.eqE (.add (.add (pv "Y") (pv "Y")) (pv "x3"))
                  (.add (pv "W") (.mul (.lit 10) (pv "x4")))),
       sumC (.eqE (.add (.add (pv "T") (pv "T")) (pv "x4"))
                  (.add (pv "O") (.mul (.lit 10) (pv "x5")))),
       sumC (.eqE (pv "F") (pv "x5")),
       { type := some "different", vars := some (letters ++ carry) }]⟩
  | _ => none

/-- `json.dump` then `json.load` on one stored value: tuples become JSON
arrays and come back as lists; a raw set cannot be serialised (TypeError,
modelled as `none`). -/
def json_val : PyVal → Option PyVal
  | .int n => some (.int n)
  | .str s => some (.str s)
  | .bool b => some (.bool b)
  | .intPair a b => some (.intList [a, b])
  | .intList l => some (.intList l)
  | .strList l => some (.strList l)
  | .strSet _ => none

/-- Python `list(v)` as used on the binary-constraint variable references:
a string explodes into its characters, a set or list keeps its elements,
an int raises TypeError (`none`). -/
def py_list : PyVal → Option PyVal
  | .str s => some (.strList (s.data.map (fun ch => String.mk [ch])))
  | .strSet l => some (.strList l)
  | .strList l => some (.strList l)
  | .intList l => some (.intList l)
  | .intPair a b => some (.intList [a, b])
  | .int _ => none
  | .bool _ => none

/-- `save_problem` for the cryptarithmetic shape (`"F" in variables`):
keep `sum` constraints as type+expression and `different` constraints as
type+variables, silently dropping any other type; a missing key raises
KeyError (`none`). -/
def save_constraints_crypt : List Constraint → Option (List Constraint)
  | [] => some []
  | c :: rest =>
    match c.type with
    | some "sum" =>
      match c.expression with
      | some e => (save_constraints_crypt rest).map
          (fun l => { type := some "sum", expression := some e } :: l)
      | none => none
    | some "different" =>
      match c.vars with
      | some vs => (save_constraints_crypt rest).map
          (fun l => ({ type := some "different", vars := some vs } : Constraint) :: l)
      | none => none
    | some _ => save_constraints_crypt rest
    | none => none

/-- `save_problem` for the binary shape: keep type and `list(...)` of both
variable references. -/
def save_constraints_binary : List Constraint → Option (List Constraint)
  | [] => some []
  | c :: rest => do
    let t ← c.type
    let v1 ← c.variable1
    let v2 ← c.variable2
    let l1 ← py_list v1
    let l2 ← py_list v2
    let tail ← save_constraints_binary rest
    pure ({ type := some t, variable1 := some l1, variable2 := some l2 } :: tail)

/-- `save_problem(problem, file)`: the JSON document written to disk,
expressed as the triple that parsing it back produces (`none` models a
raised serialisation error). -/
def save_problem (p : Problem) : Option Problem := do
  let doms ← p.domains.mapM (fun kv => do
    let l ← kv.2.mapM json_val
    pure (kv.1, l))
  let cs ← if "F" ∈ p.vars then save_constraints_crypt p.constraints
           else save_constraints_binary p.constraints
  pure ⟨p.vars, doms, cs⟩

/-- `load_problem(file)`: return the parsed triple. -/
def load_problem (d : Problem) : Problem := ⟨d.vars, d.domains, d.constraints⟩

/-- Saving then loading a problem. -/
def round_trip (p : Problem) : Option Problem := (save_problem p).map load_problem

/-- Python `==` on two lists under an element equality. -/
def pyListEq {α : Type} (f : α → α → Bool) (l1 l2 : List α) : Bool :=
  l1.length == l2.length && (l1.zip l2).all (fun q => f q.1 q.2)

/-- Python `==` on two string-keyed dicts: order-insensitive key-value
agreement. -/
def dictEq {α : Type} (f : α → α → Bool) (d1 d2 : List (String × α)) : Bool :=
  d1.all (fun kv => match lookupA d2 kv.1 with
    | some w => f kv.2 w
    | none => false) &&
  d2.all (fun kv => match lookupA d1 kv.1 with
    | some w => f w kv.2
    | none => false)

/-- Python `==` on two options under an equality (absent keys only equal
absent keys). -/
def optEq {α : Type} (f : α → α → Bool) : Option α → Option α → Bool
  | none, none => true
  | some a, some b => f a b
  | _, _ => false

/-- Python `==` on two constraint dicts. -/
def constraintPyEq (c d : Constraint) : Bool :=
  optEq (· == ·) c.type d.type &&
  optEq pyEq c.variable1 d.variable1 &&
  optEq pyEq c.variable2 d.variable2 &&
  optEq (· == ·) c.vars d.vars &&
  optEq (· == ·) c.expression d.expression

/-- Python `==` on two `(variables, domains, constraints)` triples. -/
def problemPyEq (p q : Problem) : Bool :=
  p.vars == q.vars &&
  dictEq (pyListEq pyEq) p.domains q.domains &&
  pyListEq constraintPyEq p.constraints q.constraints

/-- Whether an optional problem survives save-then-load with a Python-equal
triple. -/
def round_trip_ok (op : Option Problem) : Bool :=
  match op with
  | none => false
  | some p =>
    match round_trip p with
    | none => false
    | some q => problemPyEq p q

/-- The spec's notion of neighbour (glossary: a variable co-referenced
with another in at least one constraint), used only to state the
value-ordering contract of spec section 4.3 against the code. -/
def spec_neighbours (cs : List Constraint) (x : String) : List String :=
  cs.foldl (fun acc c =>
    let fromBinary :=
      match c.variable1, c.variable2 with
      | some (.str a), some (.str b) =>
        if x = a then [b] else if x = b then [a] else []
      | _, _ => []
    let fromSet :=
      match c.vars with
      | some vs => if x ∈ vs then vs.filter (· ≠ x) else []
      | none => []
    (fromBinary ++ fromSet).foldl addNb acc) []

/-- The conflict count of spec section 4.3: for a candidate value of `x`,
over each unassigned neighbour, the number of that neighbour's domain
values the consistency check of section 4.1 rejects once the candidate is
committed. -/
def spec_conflict_count (vars : List String) (cs : List Constraint)
    (doms : List (String × List PyVal)) (x : String) (v : PyVal)
    (assignment : List (String × PyVal)) : Nat :=
  ((spec_neighbours cs x).filter
      (fun nb => (lookupA assignment nb).isNone)).foldl
    (fun acc nb =>
      acc + (domOf doms nb).countP
        (fun w => is_consistent vars cs (insertA assignment x v) nb w = .ok false))
    0

/-- The mutable state `_is_consistent` can see: the domain dict and the
assignment dict passed in. -/
structure CSPState where
  domains : List (String × List PyVal)
  assignment : List (String × PyVal)
deriving DecidableEq, Repr

/-- The method-level view of `_is_consistent`, threading the shared
mutable state through the call as the translation of each statement reads
it: the body only builds the fresh merged dict `temp_assignment` and reads
`self.variables` / `self.constraints`, so the state passes through. -/
def is_consistent_state (vars : List String) (cs : List Constraint)
    (st : CSPState) (x : String) (value : PyVal) :
    CSPState × Except String Bool :=
  let temp := insertA st.assignment x value
  (st, is_consistent_loop vars temp x cs)

/-- The value the JSON round trip produces for one serialisable stored
value: tuples come back as lists, everything else unchanged. -/
def jsonified : PyVal → PyVal
  | .intPair a b => .intList [a, b]
  | v => v

/-- The saved form of the map-coloring constraint list (the builder's
constraints do not depend on the color count, so neither does this). -/
def mc_saved_constraints : List Constraint :=
  (save_constraints_binary (map_coloring_problem 0).constraints).getD []

/-- A three-variable problem whose variable list contains the literal
string `Q[`, so the binary constraints dispatch to the queens predicate
table; `A`'s two candidate positions both share row 0 with `B`'s only
position. -/
def reviseProblem : Problem :=
  ⟨["Q[", "A", "B"],
   [("Q[", []), ("A", [.intPair 0 0, .intPair 0 1]), ("B", [.intPair 0 5])],
   [{ type := some "row-different", variable1 := some (.str "A"),
      variable2 := some (.str "B") }]⟩

/-- Like `reviseProblem` but with the constraint stored as
`(variable1, variable2) = (B, A)`, so the check evaluated from `B`'s side
reads both values correctly. -/
def orderingProblem : Problem :=
  ⟨["Q[", "A", "B"],
   [("Q[", [.int 0]), ("A", [.intPair 0 0, .intPair 1 1]), ("B", [.intPair 0 5])],
   [{ type := some "row-different", variable1 := some (.str "B"),
      variable2 := some (.str "A") }]⟩

/-- A problem with an MRV tie between `A` and `B` (singleton domains)
while `C` has the largest domain and the most neighbours. -/
def tieProblem : Problem :=
  ⟨["A", "B", "C"],
   [("A", [.int 1]), ("B", [.int 1]), ("C", [.int 1, .int 2])],
   [{ type := some "different", vars := some ["C", "A"] },
    { type := some "different", vars := some ["C", "B"] }]⟩

/-- An arithmetic-predicate constraint carrying a `variables` key, whose
expression `A + B == 2` references the still-unassigned `B`. -/
def underdeterminedSum : Constraint :=
  { type := some "sum", vars := some ["A", "B"],
    expression := some (.eqE (.add (.var "A") (.var "B")) (.lit 2)) }

set_option maxRecDepth 100000
set_option synthInstance.maxSize 2000

/-- C1: the claim says that after revising `A`'s domain against `B` no
value of `A` without support in `B`'s domain remains.  The revise loop
removes values from the list it is iterating, so removing `(0,0)` makes
the iterator skip `(0,1)`: the revise step returns with the unsupported
`(0,1)` still in `A`'s domain, `B`'s only value `(0,5)` rejecting it. -/
theorem claim_C1_revise_leaves_unsupported_value :
    remove_value reviseProblem.vars reviseProblem.constraints
      reviseProblem.domains "A" "B" =
      .ok ([("Q[", []), ("A", [.intPair 0 1]), ("B", [.intPair 0 5])], true) ∧
    is_consistent reviseProblem.vars reviseProblem.constraints
      (insertA [("A", .intPair 0 1)] "B" (.intPair 0 5)) "A" (.intPair 0 1) =
      .ok false := by decide

/-- C2 counterexample: with `B` unassigned, the expression `A + B == 2` of
a `variables`-keyed arithmetic constraint cannot be evaluated, and
`is_consistent` returns false for the candidate `A = 1` because of that
constraint alone — it does not treat the under-determined constraint as
non-violating. -/
theorem claim_C2_counterexample :
    lookupA ([] : List (String × PyVal)) "B" = none ∧
    is_consistent ["A", "B"] [underdeterminedSum] [] "A" (.int 1) =
      .ok false := by decide

/-- C3: the claim says `order_domain_values` sorts ascending by the number
of neighbour options a candidate rules out.  `_count_conflict` tests the
variable against the constraint dict KEYS, so every count is zero and the
domain comes back in its original order: `(0,0)` (spec conflict count 1)
is returned before `(1,1)` (spec conflict count 0). -/
theorem claim_C3_order_ignores_conflicts :
    least_constrained_value orderingProblem.constraints
      orderingProblem.domains "A" = .ok [.intPair 0 0, .intPair 1 1] ∧
    spec_conflict_count orderingProblem.vars orderingProblem.constraints
      orderingProblem.domains "A" (.intPair 0 0) [] = 1 ∧
    spec_conflict_count orderingProblem.vars orderingProblem.constraints
      orderingProblem.domains "A" (.intPair 1 1) [] = 0 := by decide

/-- C4 counterexample: on an MRV tie the degree heuristic runs over the
FULL unassigned list, so `select_unassigned_variable` returns `C`, whose
domain size 2 does not attain the minimum domain size 1 held by the
unassigned `A`; and on a complete assignment the selection raises
IndexError rather than returning none. -/
theorem claim_C4_counterexample :
    select_unassigned_variable tieProblem.vars tieProblem.constraints
      tieProblem.domains [] = .ok "C" ∧
    (domOf tieProblem.domains "C").length = 2 ∧
    (domOf tieProblem.domains "A").length = 1 ∧
    (lookupA ([] : List (String × PyVal)) "A").isNone = true ∧
    select_unassigned_variable tieProblem.vars tieProblem.constraints
      tieProblem.domains [("A", .int 1), ("B", .int 1), ("C", .int 1)] =
      .error "IndexError" := by decide

/-- C6: the claim says the solver fails on 2-queens and 3-queens.  The
builder names its variables `Q[i]` but its constraints `Qi`, so no
constraint ever touches a variable: the solver instead returns the first
position `(0,0)` for every queen. -/
theorem claim_C6_queens_2_and_3_return_solutions :
    backtracking_search 1 3 (n_queens_problem 2) =
      some (.ok (.sol [("Q[1]", .intPair 0 0), ("Q[2]", .intPair 0 0)],
        (n_queens_problem 2).domains, 3)) ∧
    backtracking_search 1 4 (n_queens_problem 3) =
      some (.ok (.sol [("Q[1]", .intPair 0 0), ("Q[2]", .intPair 0 0),
        ("Q[3]", .intPair 0 0)], (n_queens_problem 3).domains, 4)) := by decide

/-- C7 counterexample: saving then loading the 1-queen problem turns the
tuple position `(0,0)` into the list `[0,0]`, so the loaded triple is not
equal to the original. -/
theorem claim_C7_counterexample :
    round_trip (n_queens_problem 1) =
      some ⟨["Q[1]"], [("Q[1]", [.intList [0, 0]])], []⟩ ∧
    (n_queens_problem 1).domains = [("Q[1]", [.intPair 0 0])] ∧
    problemPyEq (n_queens_problem 1)
      ⟨["Q[1]"], [("Q[1]", [.intList [0, 0]])], []⟩ = false := by decide

theorem lookupA_insertA_self {α : Type} (a : List (String × α)) (k : String)
    (v : α) : lookupA (insertA a k v) k = some v := by
  induction a with
  | nil => simp [insertA, lookupA]
  | cons p rest ih =>
    obtain ⟨k', w⟩ := p
    by_cases h : k = k'
    · subst h; simp [insertA, lookupA]
    · simp [insertA, lookupA, h, ih]

theorem lookupA_insertA_ne {α : Type} (a : List (String × α)) (k w : String)
    (v : α) (h : w ≠ k) : lookupA (insertA a k v) w = lookupA a w := by
  induction a with
  | nil => simp [insertA, lookupA, h]
  | cons p rest ih =>
    obtain ⟨k', u⟩ := p
    by_cases hk : k = k'
    · subst hk; simp [insertA, lookupA, h]
    · simp only [insertA, if_neg hk, lookupA]
      by_cases hw : w = k'
      · simp [hw]
      · simp [hw, ih]

theorem mem_insort {α : Type} (key : α → Nat) (b a : α) (l : List α) :
    a ∈ insort key b l ↔ a = b ∨ a ∈ l := by
  induction l with
  | nil => simp [insort]
  | cons c cs ih =>
    by_cases h : key b ≤ key c
    · simp [insort, h]
    · simp [insort, h, ih]; tauto

theorem mem_sorted_by {α : Type} (key : α → Nat) (a : α) (l : List α) :
    a ∈ sorted_by key l ↔ a ∈ l := by
  induction l with
  | nil => simp [sorted_by]
  | cons c cs ih => simp [sorted_by, mem_insort, ih]

theorem pairwise_insort {α : Type} (key : α → Nat) (a : α) (l : List α)
    (h : l.Pairwise (fun x y => key x ≤ key y)) :
    (insort key a l).Pairwise (fun x y => key x ≤ key y) := by
  induction l with
  | nil => simp [insort]
  | cons c cs ih =>
    rcases List.pairwise_cons.mp h with ⟨hc, hcs⟩
    by_cases hle : key a ≤ key c
    · rw [insort, if_pos hle]
      refine List.pairwise_cons.mpr ⟨?_, h⟩
      intro x hx
      rcases List.mem_cons.mp hx with hx | hx
      · subst hx; exact hle
      · exact le_trans hle (hc x hx)
    · rw [insort, if_neg hle]
      refine List.pairwise_cons.mpr ⟨?_, ih hcs⟩
      intro x hx
      rcases (mem_insort key a x cs).mp hx with hx | hx
      · subst hx; omega
      · exact hc x hx

theorem pairwise_sorted_by {α : Type} (key : α → Nat) (l : List α) :
    (sorted_by key l).Pairwise (fun x y => key x ≤ key y) := by
  induction l with
  | nil => simp [sorted_by]
  | cons c cs ih => exact pairwise_insort key c _ ih

theorem sorted_by_head_min {α : Type} (key : α → Nat) (l : List α) (m : α)
    (rest : List α) (h : sorted_by key l = m :: rest) :
    ∀ x ∈ l, key m ≤ key x := by
  intro x hx
  have hmem : x ∈ sorted_by key l := (mem_sorted_by key x l).mpr hx
  rw [h] at hmem
  rcases List.mem_cons.mp hmem with hmem | hmem
  · simp [hmem]
  · have := pairwise_sorted_by key l
    rw [h] at this
    exact (List.pairwise_cons.mp this).1 x hmem

theorem sorted_by_const {α : Type} (key : α → Nat) (n : Nat) (l : List α)
    (h : ∀ x ∈ l, key x = n) : sorted_by key l = l := by
  induction l with
  | nil => rfl
  | cons c cs ih =>
    have hcs : ∀ x ∈ cs, key x = n := fun x hx => h x (List.mem_cons_of_mem _ hx)
    rw [sorted_by, ih hcs]
    cases cs with
    | nil => rfl
    | cons d ds =>
      have : key c ≤ key d := by
        rw [h c (by simp), h d (by simp)]
      simp [insort, this]

theorem sorted_by_ne_nil {α : Type} (key : α → Nat) (l : List α)
    (h : l ≠ []) : sorted_by key l ≠ [] := by
  intro hs
  cases l with
  | nil => exact h rfl
  | cons c cs =>
    have : c ∈ sorted_by key (c :: cs) := (mem_sorted_by key c _).mpr (by simp)
    rw [hs] at this
    exact absurd this (List.not_mem_nil c)

theorem maxByKeyGo_spec {α : Type} (pairs : List (α × Nat)) :
    ∀ (best : α) (bestKey : Nat),
    ∃ k, ((maxByKey.maxByKeyGo best bestKey pairs, k) = (best, bestKey) ∨
        (maxByKey.maxByKeyGo best bestKey pairs, k) ∈ pairs) ∧
      bestKey ≤ k ∧ ∀ p ∈ pairs, p.2 ≤ k := by
  induction pairs with
  | nil =>
    intro best bestKey
    exact ⟨bestKey, Or.inl rfl, le_refl _, by simp⟩
  | cons q rest ih =>
    intro best bestKey
    obtain ⟨a, k0⟩ := q
    by_cases h : bestKey < k0
    · obtain ⟨k, hor, hk0, hrest⟩ := ih a k0
      rw [show maxByKey.maxByKeyGo best bestKey ((a, k0) :: rest) =
        maxByKey.maxByKeyGo a k0 rest from by simp [maxByKey.maxByKeyGo, h]]
      refine ⟨k, ?_, le_trans (le_of_lt h) hk0, ?_⟩
      · rcases hor with hor | hor
        · exact Or.inr (by rw [hor]; exact List.mem_cons_self _ _)
        · exact Or.inr (List.mem_cons_of_mem _ hor)
      · intro p hp
        rcases List.mem_cons.mp hp with hp | hp
        · subst hp; exact hk0
        · exact hrest p hp
    · obtain ⟨k, hor, hble, hrest⟩ := ih best bestKey
      rw [show maxByKey.maxByKeyGo best bestKey ((a, k0) :: rest) =
        maxByKey.maxByKeyGo best bestKey rest from by simp [maxByKey.maxByKeyGo, h]]
      refine ⟨k, ?_, hble, ?_⟩
      · rcases hor with hor | hor
        · exact Or.inl hor
        · exact Or.inr (List.mem_cons_of_mem _ hor)
      · intro p hp
        rcases List.mem_cons.mp hp with hp | hp
        · subst hp; simp; omega
        · exact hrest p hp

theorem maxByKey_spec {α : Type} (pairs : List (α × Nat)) (a : α)
    (h : maxByKey pairs = some a) :
    ∃ k, (a, k) ∈ pairs ∧ ∀ p ∈ pairs, p.2 ≤ k := by
  cases pairs with
  | nil => simp [maxByKey] at h
  | cons q rest =>
    obtain ⟨b, k0⟩ := q
    have ha : maxByKey.maxByKeyGo b k0 rest = a := by
      simpa [maxByKey] using h
    obtain ⟨k, hor, hk0, hrest⟩ := maxByKeyGo_spec rest b k0
    rw [ha] at hor
    refine ⟨k, ?_, ?_⟩
    · rcases hor with hor | hor
      · rw [show (b, k0) = (a, k) from hor.symm]
        exact List.mem_cons_self _ _
      · exact List.mem_cons_of_mem _ hor
    · intro p hp
      rcases List.mem_cons.mp hp with hp | hp
      · subst hp
        rcases hor with hor | hor
        · have := congrArg Prod.snd hor
          simp at this
          omega
        · exact hk0
      · exact hrest p hp

theorem mapM_deg (cs : List Constraint) :
    ∀ un : List String, (∀ u ∈ un, (neighbours cs u).isOk = true) →
    un.mapM (fun v => do
      let ns ← neighbours cs v
      pure (v, ns.length)) = .ok (un.map (fun u => (u, nbLen cs u))) := by
  intro un
  induction un with
  | nil => intro _; rfl
  | cons u us ih =>
    intro h
    have hu := h u (List.mem_cons_self u us)
    cases hns : neighbours cs u with
    | error e => rw [hns] at hu; simp [Except.isOk, Except.toBool] at hu
    | ok ns =>
      have hrest := ih (fun w hw => h w (List.mem_cons_of_mem _ hw))
      rw [List.mapM_cons, hns, hrest]
      rw [List.map_cons]
      rw [show nbLen cs u = ns.length from by simp [nbLen, hns]]
      rfl

theorem select_unassigned_spec (vars : List String) (cs : List Constraint)
    (doms : List (String × List PyVal)) (a : List (String × PyVal))
    (hnb : ∀ u ∈ unassignedVars vars a, (neighbours cs u).isOk = true) :
    (unassignedVars vars a = [] →
      select_unassigned_variable vars cs doms a = .error "IndexError") ∧
    (unassignedVars vars a ≠ [] →
      ∃ v, select_unassigned_variable vars cs doms a = .ok v ∧
        v ∈ unassignedVars vars a ∧
        ((∀ u ∈ unassignedVars vars a,
            (domOf doms v).length ≤ (domOf doms u).length) ∨
         (∀ u ∈ unassignedVars vars a, nbLen cs u ≤ nbLen cs v))) := by
  constructor
  · intro h
    unfold select_unassigned_variable minimum_remaining_variables
    rw [h]
    rfl
  · intro hne
    cases hmrv : minimum_remaining_variables doms (unassignedVars vars a) with
    | nil =>
      exact absurd hmrv (sorted_by_ne_nil _ _ hne)
    | cons m rest =>
      have hmmem : m ∈ unassignedVars vars a := by
        have : m ∈ minimum_remaining_variables doms (unassignedVars vars a) := by
          rw [hmrv]; exact List.mem_cons_self m rest
        exact (mem_sorted_by _ m _).mp this
      have hmin : ∀ u ∈ unassignedVars vars a,
          (domOf doms m).length ≤ (domOf doms u).length :=
        sorted_by_head_min _ _ m rest hmrv
      simp only [select_unassigned_variable, hmrv]
      have hfc : List.filter
            (fun v => decide ((domOf doms v).length = (domOf doms m).length))
            (m :: rest) =
          m :: List.filter
            (fun v => decide ((domOf doms v).length = (domOf doms m).length))
            rest := by
        simp
      rw [hfc]
      by_cases hlen : (m :: List.filter
          (fun v => decide ((domOf doms v).length = (domOf doms m).length))
          rest).length > 1
      · rw [if_pos hlen]
        obtain ⟨u, us, hun⟩ : ∃ y ys, unassignedVars vars a = y :: ys := by
          cases hcase : unassignedVars vars a with
          | nil => exact absurd hcase hne
          | cons y ys => exact ⟨y, ys, rfl⟩
        have hpairs := mapM_deg cs (unassignedVars vars a) hnb
        rw [hun] at hpairs
        have hdeg : degree_heuristic cs (u :: us) =
            match maxByKey
              ((u, nbLen cs u) :: us.map (fun w => (w, nbLen cs w))) with
            | some w => Except.ok w
            | none => Except.error "ValueError" := by
          unfold degree_heuristic
          rw [hpairs]
          rfl
        set v := maxByKey.maxByKeyGo u (nbLen cs u)
          (us.map (fun w => (w, nbLen cs w))) with hvdef
        have hmax : maxByKey
            ((u, nbLen cs u) :: us.map (fun w => (w, nbLen cs w))) = some v := rfl
        obtain ⟨k, hkmem, hkmax⟩ := maxByKey_spec _ _ hmax
        have hvmem : v ∈ unassignedVars vars a ∧ k = nbLen cs v := by
          have hkm : (v, k) ∈ (u :: us).map (fun z => (z, nbLen cs z)) := by
            simpa using hkmem
          obtain ⟨w, hw, hwe⟩ := List.mem_map.mp hkm
          have h1 : w = v := congrArg Prod.fst hwe
          have h2 : nbLen cs w = k := congrArg Prod.snd hwe
          exact ⟨hun ▸ (h1 ▸ hw), by rw [← h2, h1]⟩
        refine ⟨v, ?_, hvmem.1, Or.inr ?_⟩
        · rw [hun, hdeg, hmax]
        · intro w hw
          rw [hun] at hw
          have hwp : (w, nbLen cs w) ∈
              (u, nbLen cs u) :: us.map (fun z => (z, nbLen cs z)) := by
            simpa using List.mem_map_of_mem (fun z => (z, nbLen cs z)) hw
          have hle := hkmax _ hwp
          simpa [← hvmem.2] using hle
      · rw [if_neg hlen]
        exact ⟨m, rfl, hmmem, Or.inl hmin⟩


/-- C4 amended: with every neighbour computation over the unassigned
variables succeeding, `select_unassigned_variable` raises IndexError (it
never returns none) exactly when the unassigned set is empty; otherwise it
returns, without raising, an unassigned variable that either attains the
minimum domain size (unique MRV minimum) or attains the maximum neighbour
count over the FULL unassigned set — in the tied case the returned
variable need not attain the minimum domain size. -/
theorem claim_C4_amended (vars : List String) (cs : List Constraint)
    (doms : List (String × List PyVal)) (a : List (String × PyVal))
    (hnb : ∀ u ∈ unassignedVars vars a, (neighbours cs u).isOk = true) :
    (unassignedVars vars a = [] →
      select_unassigned_variable vars cs doms a = .error "IndexError") ∧
    (unassignedVars vars a ≠ [] →
      ∃ v, select_unassigned_variable vars cs doms a = .ok v ∧
        v ∈ unassignedVars vars a ∧
        ((∀ u ∈ unassignedVars vars a,
            (domOf doms v).length ≤ (domOf doms u).length) ∨
         (∀ u ∈ unassignedVars vars a, nbLen cs u ≤ nbLen cs v))) :=
  select_unassigned_spec vars cs doms a hnb

/-- Witness for C4 amended: on `tieProblem` with the empty assignment the
selection returns an unassigned variable satisfying the characterisation. -/
theorem claim_C4_amended_witness :
    ∃ v, select_unassigned_variable tieProblem.vars tieProblem.constraints
        tieProblem.domains [] = .ok v ∧
      v ∈ unassignedVars tieProblem.vars [] ∧
      ((∀ u ∈ unassignedVars tieProblem.vars [],
          (domOf tieProblem.domains v).length ≤ (domOf tieProblem.domains u).length) ∨
       (∀ u ∈ unassignedVars tieProblem.vars [],
          nbLen tieProblem.constraints u ≤ nbLen tieProblem.constraints v)) :=
  (claim_C4_amended tieProblem.vars tieProblem.constraints tieProblem.domains []
    (by decide)).2 (by decide)

theorem is_consistent_loop_skip (vars : List String)
    (temp : List (String × PyVal)) (x : String) :
    ∀ cs : List Constraint,
    (∀ c ∈ cs, (c.variable1 = none ∨ c.variable2 = none) ∧ c.vars = none) →
    is_consistent_loop vars temp x cs = .ok true := by
  intro cs
  induction cs with
  | nil => intro _; rfl
  | cons c rest ih =>
    intro h
    obtain ⟨hd, hv⟩ := h c (List.mem_cons_self c rest)
    have hrest := ih (fun d hdm => h d (List.mem_cons_of_mem _ hdm))
    obtain ⟨t, v1, v2, cv, ex⟩ := c
    simp only at hd hv
    subst hv
    rcases hd with h1 | h2
    · subst h1
      cases v2 <;> simp [is_consistent_loop, hrest]
    · subst h2
      cases v1 <;> simp [is_consistent_loop, hrest]

/-- C2 corrected: for an expression constraint carrying a `variables` key
(the arithmetic-predicate branch of `_is_consistent`), any candidate whose
referenced variable stays unassigned makes the expression raise inside
`eval`, and the bare `except` handler returns FALSE — the constraint is
treated as violated, not as non-violating; the same branch also returns
false when the expression evaluates falsy.  Arithmetic constraints carrying
neither the pair keys nor a `variables` key (the `sum` constraints the
builder produces) are never examined at all, so they never contribute a
false result, even on a complete assignment falsifying them. -/
theorem claim_C2_amended :
    (∀ (vars : List String) (t : String) (vs : List String) (e : PExpr)
        (a : List (String × PyVal)) (x : String) (v : PyVal),
      t ≠ "different" → x ∈ vs →
      (evalExpr e (insertA a x v)).map truthy ≠ some true →
      is_consistent vars
        [{ type := some t, vars := some vs, expression := some e }] a x v =
        .ok false) ∧
    (∀ (vars : List String) (cs : List Constraint)
        (a : List (String × PyVal)) (x : String) (v : PyVal),
      (∀ c ∈ cs, (c.variable1 = none ∨ c.variable2 = none) ∧ c.vars = none) →
      is_consistent vars cs a x v = .ok true) := by
  constructor
  · intro vars t vs e a x v ht hx hev
    unfold is_consistent
    have hne : ¬(some t = some "different") := by simpa using ht
    cases hev2 : evalExpr e (insertA a x v) with
    | none => simp [is_consistent_loop, hx, hne, hev2]
    | some r =>
      have htr : truthy r = false := by
        rw [hev2] at hev
        simpa using hev
      simp [is_consistent_loop, hx, hne, hev2, htr]
  · intro vars cs a x v h
    exact is_consistent_loop_skip vars _ x cs h

/-- Witness for C2 amended: the concrete under-determined constraint of
the counterexample, and a skipped `sum`-shaped constraint falsified by a
complete assignment. -/
theorem claim_C2_amended_witness :
    is_consistent ["A", "B"]
      [{ type := some "sum", vars := some ["A", "B"],
         expression := some (.eqE (.add (.var "A") (.var "B")) (.lit 2)) }]
      [] "A" (.int 1) = .ok false ∧
    is_consistent ["A", "B"]
      [{ type := some "sum",
         expression := some (.eqE (.add (.var "A") (.var "B")) (.lit 2)) }]
      [("B", .int 5)] "A" (.int 1) = .ok true :=
  ⟨claim_C2_amended.1 ["A", "B"] "sum" ["A", "B"]
      (.eqE (.add (.var "A") (.var "B")) (.lit 2)) [] "A" (.int 1)
      (by decide) (by decide) (by decide),
    claim_C2_amended.2 ["A", "B"] _ [("B", .int 5)] "A" (.int 1) (by decide)⟩

/-- C9: `_is_consistent` never mutates the shared state: the domain dict
and the assignment dict pass through the call unchanged, and the boolean
result is a pure function of the inputs (the body only allocates the fresh
merged dict `temp_assignment` and reads `self.variables` and
`self.constraints`). -/
theorem claim_C9_is_consistent_pure (vars : List String) (cs : List Constraint)
    (st : CSPState) (x : String) (v : PyVal) :
    (is_consistent_state vars cs st x v).1 = st ∧
    (is_consistent_state vars cs st x v).2 =
      is_consistent vars cs st.assignment x v :=
  ⟨rfl, rfl⟩

theorem remove_loop_sublist (vars : List String) (cs : List Constraint)
    (var1 var2 : String) (dom2 : List PyVal) :
    ∀ (fuel : Nat) (l : List PyVal) (i : Nat) (l' : List PyVal) (b : Bool),
    remove_loop vars cs var1 var2 dom2 fuel l i = .ok (l', b) →
    l'.Sublist l := by
  intro fuel
  induction fuel with
  | zero =>
    intro l i l' b h
    rw [remove_loop] at h
    cases h
    exact List.Sublist.refl _
  | succ fuel ih =>
    intro l i l' b h
    rw [remove_loop] at h
    by_cases hi : i < l.length
    · rw [dif_pos hi] at h
      dsimp only at h
      cases hs : anySupport vars cs var1 var2 (l.get ⟨i, hi⟩) dom2 with
      | error e => rw [hs] at h; cases h
      | ok supported =>
        rw [hs] at h
        cases supported with
        | true => exact ih l (i + 1) l' b h
        | false =>
          cases hrec : remove_loop vars cs var1 var2 dom2 fuel
              (l.erase (l.get ⟨i, hi⟩)) (i + 1) with
          | error e => rw [hrec] at h; cases h
          | ok p =>
            obtain ⟨l2, b2⟩ := p
            rw [hrec] at h
            cases h
            exact (ih _ (i + 1) _ _ hrec).trans (List.erase_sublist _ _)
    · rw [dif_neg hi] at h
      cases h
      exact List.Sublist.refl _

theorem lookupA_setDom (doms : List (String × List PyVal)) (k w : String)
    (l : List PyVal) :
    lookupA (setDom doms k l) w =
      if w = k then (lookupA doms k).map (fun _ => l) else lookupA doms w := by
  induction doms with
  | nil => simp [setDom, lookupA]
  | cons p rest ih =>
    obtain ⟨k', d⟩ := p
    have hsd : setDom ((k', d) :: rest) k l =
        (if k' = k then (k, l) else (k', d)) :: setDom rest k l := rfl
    rw [hsd]
    by_cases hk : k' = k
    · rw [if_pos hk]
      subst hk
      by_cases hw : w = k'
      · subst hw
        simp [lookupA]
      · simp [lookupA, hw, ih]
    · rw [if_neg hk]
      have hkk : ¬(k = k') := fun he => hk he.symm
      by_cases hw : w = k'
      · subst hw
        have hwk : ¬(w = k) := hk
        simp [lookupA, hwk]
      · simp [lookupA, hw, hkk, ih]

theorem remove_value_sublist (vars : List String) (cs : List Constraint)
    (doms doms' : List (String × List PyVal)) (var1 var2 : String) (b : Bool)
    (h : remove_value vars cs doms var1 var2 = .ok (doms', b)) :
    ∀ w, (domOf doms' w).Sublist (domOf doms w) := by
  intro w
  unfold remove_value at h
  cases hloop : remove_loop vars cs var1 var2 (domOf doms var2)
      ((domOf doms var1).length + 1) (domOf doms var1) 0 with
  | error e => rw [hloop] at h; cases h
  | ok p =>
    obtain ⟨l', removed⟩ := p
    rw [hloop] at h
    cases h
    have hsub : l'.Sublist (domOf doms var1) :=
      remove_loop_sublist vars cs var1 var2 _ _ _ 0 l' _ hloop
    unfold domOf
    rw [lookupA_setDom]
    by_cases hw : w = var1
    · subst hw
      cases hlk : lookupA doms w with
      | none => simp
      | some d =>
        simp only [if_pos rfl, hlk, Option.map_some, Option.getD_some]
        have : domOf doms w = d := by simp [domOf, hlk]
        exact this ▸ hsub
    · simp [hw]

theorem cp_loop_sublist (vars : List String) (cs : List Constraint)
    (a : List (String × PyVal)) :
    ∀ (fuel : Nat) (queue : List (String × String))
      (doms doms' : List (String × List PyVal)) (b : Bool),
    cp_loop vars cs a fuel queue doms = some (.ok (doms', b)) →
    ∀ w, (domOf doms' w).Sublist (domOf doms w) := by
  intro fuel
  induction fuel with
  | zero => intro queue doms doms' b h; cases h
  | succ fuel ih =>
    intro queue doms doms' b h w
    cases queue with
    | nil =>
      rw [cp_loop] at h
      cases h
      exact List.Sublist.refl _
    | cons q rest =>
      obtain ⟨var1, var2⟩ := q
      rw [cp_loop] at h
      cases hrv : remove_value vars cs doms var1 var2 with
      | error e => rw [hrv] at h; cases h
      | ok p =>
        obtain ⟨d1, removed⟩ := p
        rw [hrv] at h
        have hstep := remove_value_sublist vars cs doms d1 var1 var2 removed hrv
        cases removed with
        | false =>
          simp only [if_neg (Bool.false_ne_true)] at h
          exact (ih rest d1 doms' b h w).trans (hstep w)
        | true =>
          simp only [if_pos rfl] at h
          by_cases hemp : domOf d1 var1 = []
          · rw [if_pos hemp] at h
            cases h
            exact hstep w
          · rw [if_neg hemp] at h
            cases hnb : neighbours cs var1 with
            | error e => rw [hnb] at h; cases h
            | ok ns =>
              rw [hnb] at h
              exact (ih _ d1 doms' b h w).trans (hstep w)

/-- C8: constraint propagation only ever shrinks domains: whenever a
propagation call returns normally, every variable's final domain is a
subsequence (order-preserving subset) of its domain at entry — the
worklist loop only rewrites a domain to the output of the revise step,
which only erases elements. -/
theorem claim_C8_propagation_shrinks (pfuel : Nat) (vars : List String)
    (cs : List Constraint) (doms doms' : List (String × List PyVal))
    (a : List (String × PyVal)) (b : Bool)
    (h : constraint_propagation pfuel vars cs doms a = some (.ok (doms', b))) :
    ∀ w, (domOf doms' w).Sublist (domOf doms w) := by
  unfold constraint_propagation at h
  cases hq : vars.mapM (fun v =>
      (neighbours cs v).map (fun ns => ns.map (fun w => (v, w)))) with
  | error e => rw [hq] at h; cases h
  | ok qs =>
    rw [hq] at h
    exact cp_loop_sublist vars cs a pfuel qs.flatten doms doms' b h

/-- Witness for C8: propagation over `reviseProblem` from the empty
assignment returns normally (reporting a wipeout of `B`) and the resulting
domain of `A` is a subsequence of its starting domain. -/
theorem claim_C8_witness :
    constraint_propagation 5 reviseProblem.vars reviseProblem.constraints
      reviseProblem.domains [] =
      some (.ok ([("Q[", []), ("A", [.intPair 0 1]), ("B", [])], false)) ∧
    (domOf [("Q[", []), ("A", [.intPair 0 1]), ("B", [])] "A").Sublist
      (domOf reviseProblem.domains "A") :=
  ⟨by decide,
    claim_C8_propagation_shrinks 5 reviseProblem.vars reviseProblem.constraints
      reviseProblem.domains _ [] false (by decide) "A"⟩

theorem rb_loop_sol (pfuel : Nat) (vars : List String) (cs : List Constraint)
    (recurse : List (String × List PyVal) → List (String × PyVal) → Nat →
      Option (Except String (BTR × List (String × List PyVal) × Nat)))
    (hrec : ∀ doms a count s doms' count',
      recurse doms a count = some (.ok (.sol s, doms', count')) →
      is_complete vars s = true)
    (var : String) (a : List (String × PyVal)) :
    ∀ (values : List PyVal) (doms : List (String × List PyVal)) (count : Nat)
      (s : List (String × PyVal)) (doms' : List (String × List PyVal))
      (count' : Nat),
    rb_loop pfuel vars cs recurse var a values doms count =
      some (.ok (.sol s, doms', count')) →
    is_complete vars s = true := by
  intro values
  induction values with
  | nil =>
    intro doms count s d c h
    rw [rb_loop] at h
    cases h
  | cons v rest ih =>
    intro doms count s d c h
    rw [rb_loop] at h
    cases hcons : is_consistent vars cs a var v with
    | error e => rw [hcons] at h; cases h
    | ok bcons =>
      rw [hcons] at h
      cases bcons with
      | false => exact ih _ _ _ _ _ h
      | true =>
        dsimp only at h
        cases hprop : constraint_propagation pfuel vars cs doms
            (insertA a var v) with
        | none => rw [hprop] at h; cases h
        | some r =>
          cases r with
          | error e => rw [hprop] at h; cases h
          | ok p =>
            obtain ⟨d1, bp⟩ := p
            cases bp with
            | false =>
              rw [hprop] at h
              exact ih _ _ _ _ _ h
            | true =>
              rw [hprop] at h
              dsimp only at h
              cases hr : recurse d1 (insertA a var v) count with
              | none => rw [hr] at h; cases h
              | some r2 =>
                cases r2 with
                | error e => rw [hr] at h; cases h
                | ok q =>
                  obtain ⟨btr, d2, c2⟩ := q
                  cases btr with
                  | sol s2 =>
                    rw [hr] at h
                    cases h
                    exact hrec _ _ _ _ _ _ hr
                  | fail =>
                    rw [hr] at h
                    exact ih _ _ _ _ _ h

theorem rb_sol_complete :
    ∀ (fuel pfuel : Nat) (vars : List String) (cs : List Constraint)
      (doms : List (String × List PyVal)) (a : List (String × PyVal))
      (count : Nat) (s : List (String × PyVal))
      (doms' : List (String × List PyVal)) (count' : Nat),
    recursive_backtracking pfuel vars cs fuel doms a count =
      some (.ok (.sol s, doms', count')) →
    is_complete vars s = true := by
  intro fuel
  induction fuel with
  | zero => intro pfuel vars cs doms a count s d c h; cases h
  | succ fuel ih =>
    intro pfuel vars cs doms a count s d c h
    rw [recursive_backtracking] at h
    by_cases hc : is_complete vars a = true
    · rw [if_pos hc] at h
      cases h
      exact hc
    · rw [if_neg hc] at h
      cases hsel : select_unassigned_variable vars cs doms a with
      | error e => rw [hsel] at h; cases h
      | ok var =>
        rw [hsel] at h
        dsimp only at h
        cases hord : order_domain_value cs doms var with
        | error e => rw [hord] at h; cases h
        | ok values =>
          rw [hord] at h
          exact rb_loop_sol pfuel vars cs _
            (fun d2 a2 c2 s2 d3 c3 hcall => ih pfuel vars cs d2 a2 c2 s2 d3 c3 hcall)
            var a values doms (count + 1) s d c h

/-- C10: whenever the recursive backtracking returns something other than
the failure signal, the returned mapping assigns every variable of the
problem (the solution is exactly an assignment that passed the
completeness check); and on the zero-variable problem the search returns
the empty mapping — a value distinct from the failure signal — after one
node expansion. -/
theorem claim_C10_solution_total :
    (∀ (pfuel fuel : Nat) (vars : List String) (cs : List Constraint)
        (doms : List (String × List PyVal)) (a : List (String × PyVal))
        (count : Nat) (s : List (String × PyVal))
        (doms' : List (String × List PyVal)) (count' : Nat),
      recursive_backtracking pfuel vars cs fuel doms a count =
        some (.ok (.sol s, doms', count')) →
      ∀ v ∈ vars, (lookupA s v).isSome = true) ∧
    backtracking_search 1 1 ⟨[], [], []⟩ = some (.ok (.sol [], [], 1)) := by
  constructor
  · intro pfuel fuel vars cs doms a count s doms' count' h v hv
    have hcomp := rb_sol_complete fuel pfuel vars cs doms a count s doms' count' h
    unfold is_complete at hcomp
    exact (List.all_eq_true.mp hcomp) v hv
  · decide

/-- Witness for C10: a two-variable constraint-free run returns a mapping
that contains the variable `a`. -/
theorem claim_C10_witness :
    (lookupA [("b", PyVal.str "u"), ("a", PyVal.int 7)] "a").isSome = true :=
  claim_C10_solution_total.1 1 3 ["a", "b"] []
    [("a", [.int 7, .int 8]), ("b", [.str "u"])] [] 0
    [("b", .str "u"), ("a", .int 7)]
    [("a", [.int 7, .int 8]), ("b", [.str "u"])] 3 (by decide) "a" (by decide)

theorem mapM_ok_const {α β : Type} (f : α → β) :
    ∀ l : List α,
    l.mapM (fun v => (Except.ok (f v) : Except String β)) = .ok (l.map f) := by
  intro l
  induction l with
  | nil => rfl
  | cons a rest ih => rw [List.mapM_cons, ih]; rfl

theorem lcv_nil (doms : List (String × List PyVal)) (x : String) :
    least_constrained_value [] doms x = .ok (domOf doms x) := by
  unfold least_constrained_value
  have h1 : (domOf doms x).mapM (fun v => do
      let k ← count_conflict [] x
      pure (v, k)) = .ok ((domOf doms x).map (fun v => (v, 0))) :=
    mapM_ok_const (fun v => (v, (0 : Nat))) (domOf doms x)
  rw [h1]
  have h2 : sorted_by (fun p => p.2) ((domOf doms x).map (fun v => (v, 0))) =
      (domOf doms x).map (fun v => (v, 0)) := by
    apply sorted_by_const _ 0
    intro p hp
    obtain ⟨v, _, hve⟩ := List.mem_map.mp hp
    rw [← hve]
  show Except.ok ((sorted_by (fun p => p.2)
      ((domOf doms x).map (fun v => (v, 0)))).map (fun p => p.1)) = _
  rw [h2, List.map_map]
  have hid : ((fun p : PyVal × Nat => p.1) ∘ fun v => (v, (0 : Nat))) = id := rfl
  rw [hid, List.map_id]

theorem flatten_map_nil {α β : Type} (l : List α) :
    (l.map (fun _ => ([] : List β))).flatten = [] := by
  induction l with
  | nil => rfl
  | cons a rest ih => simpa using ih

theorem cp_nil (pfuel : Nat) (hp : 0 < pfuel) (vars : List String)
    (doms : List (String × List PyVal)) (a : List (String × PyVal)) :
    constraint_propagation pfuel vars [] doms a = some (.ok (doms, true)) := by
  unfold constraint_propagation
  have hq : vars.mapM (fun v =>
      (neighbours [] v).map (fun ns => ns.map (fun w => (v, w)))) =
      .ok (vars.map (fun _ => [])) :=
    mapM_ok_const (fun _ => []) vars
  rw [hq]
  show cp_loop vars [] a pfuel (vars.map (fun _ => [])).flatten doms = _
  rw [flatten_map_nil]
  obtain ⟨k, rfl⟩ := Nat.exists_eq_succ_of_ne_zero (Nat.pos_iff_ne_zero.mp hp)
  rfl

theorem unassigned_of_empty (vars : List String) :
    unassignedVars vars [] = vars := by
  induction vars with
  | nil => rfl
  | cons v rest ih => simp [unassignedVars, lookupA] at *

theorem mem_unassigned (vars : List String) (a : List (String × PyVal))
    (v : String) :
    v ∈ unassignedVars vars a ↔ v ∈ vars ∧ (lookupA a v).isNone = true := by
  simp [unassignedVars, List.mem_filter]

theorem complete_iff_no_unassigned (vars : List String)
    (a : List (String × PyVal)) :
    is_complete vars a = true ↔ unassignedVars vars a = [] := by
  unfold is_complete unassignedVars
  rw [List.all_eq_true, List.filter_eq_nil_iff]
  constructor
  · intro h v hv hn
    have hs := h v hv
    rw [Option.isNone_iff_eq_none] at hn
    rw [hn] at hs
    cases hs
  · intro h v hv
    have hq := h v hv
    cases hlk : lookupA a v with
    | none =>
      exfalso
      apply hq
      rw [Option.isNone_iff_eq_none]
      exact hlk
    | some w => rfl

theorem unassigned_insert (vars : List String) (hnd : vars.Nodup)
    (a : List (String × PyVal)) (v : String) (x : PyVal) :
    unassignedVars vars (insertA a v x) = (unassignedVars vars a).filter
      (fun w => w ≠ v) := by
  unfold unassignedVars
  rw [List.filter_filter]
  apply List.filter_congr
  intro w _
  by_cases hwv : w = v
  · subst hwv
    rw [lookupA_insertA_self]
    simp
  · rw [lookupA_insertA_ne _ _ _ _ hwv]
    simp [hwv]

theorem unassigned_insert_erase (vars : List String) (hnd : vars.Nodup)
    (a : List (String × PyVal)) (v : String) (x : PyVal) :
    unassignedVars vars (insertA a v x) = (unassignedVars vars a).erase v := by
  rw [unassigned_insert vars hnd a v x]
  have hnodup : (unassignedVars vars a).Nodup := by
    unfold unassignedVars
    exact hnd.filter _
  rw [List.Nodup.erase_eq_filter hnodup v]
  apply List.filter_congr
  intro w _
  by_cases h : w = v <;> simp [bne, h]

theorem rb_no_cs (vars : List String) (doms : List (String × List PyVal))
    (hnd : vars.Nodup) (hdom : ∀ v ∈ vars, domOf doms v ≠ [])
    (pfuel : Nat) (hp : 0 < pfuel) :
    ∀ (n : Nat), ∀ (a : List (String × PyVal)) (count : Nat),
    (unassignedVars vars a).length = n →
    ∃ s, recursive_backtracking pfuel vars [] (n + 1) doms a count =
        some (.ok (.sol s, doms, count + n + 1)) ∧
      ∀ w, lookupA s w =
        if w ∈ unassignedVars vars a then (domOf doms w).head?
        else lookupA a w := by
  intro n
  induction n with
  | zero =>
    intro a count hlen
    have hun : unassignedVars vars a = [] := List.length_eq_zero.mp hlen
    have hcomp : is_complete vars a = true :=
      (complete_iff_no_unassigned vars a).mpr hun
    refine ⟨a, ?_, ?_⟩
    · rw [recursive_backtracking]
      try dsimp only
      rw [if_pos hcomp]
    · intro w
      rw [hun]
      simp
  | succ n ih =>
    intro a count hlen
    have hne : unassignedVars vars a ≠ [] := by
      intro he
      rw [he] at hlen
      simp at hlen
    have hcomp : ¬ is_complete vars a = true := by
      rw [complete_iff_no_unassigned]
      intro he
      exact hne he
    have hnb : ∀ u ∈ unassignedVars vars a, (neighbours [] u).isOk = true :=
      fun _ _ => rfl
    obtain ⟨v, hsel, hvun, _⟩ :=
      (select_unassigned_spec vars [] doms a hnb).2 hne
    have hvvars : v ∈ vars := ((mem_unassigned vars a v).mp hvun).1
    have hordEq : order_domain_value [] doms v = .ok (domOf doms v) := by
      unfold order_domain_value
      exact lcv_nil doms v
    cases hd : domOf doms v with
    | nil => exact absurd hd (hdom v hvvars)
    | cons hh tt =>
      have hlen' : (unassignedVars vars (insertA a v hh)).length = n := by
        rw [unassigned_insert_erase vars hnd a v hh,
          List.length_erase_of_mem hvun, hlen]
        omega
      obtain ⟨s, hsEq, hchar⟩ := ih (insertA a v hh) (count + 1) hlen'
      have hnodup : (unassignedVars vars a).Nodup := by
        unfold unassignedVars
        exact hnd.filter _
      refine ⟨s, ?_, ?_⟩
      · rw [recursive_backtracking]
        try dsimp only
        rw [if_neg hcomp, hsel]
        try dsimp only
        rw [hordEq]
        try dsimp only
        rw [hd, rb_loop,
          show is_consistent vars [] a v hh = .ok true from rfl]
        try dsimp only
        rw [cp_nil pfuel hp vars doms (insertA a v hh)]
        try dsimp only
        rw [hsEq]
        try dsimp only
        have harith : count + 1 + n + 1 = count + (n + 1) + 1 := by omega
        rw [harith]
      · intro w
        by_cases hwv : w = v
        · subst hwv
          have h1 := hchar w
          rw [unassigned_insert_erase vars hnd a w hh] at h1
          have hnotmem : w ∉ (unassignedVars vars a).erase w := by
            intro hmem
            exact absurd ((List.Nodup.mem_erase_iff hnodup).mp hmem).1
              (by simp)
          rw [if_neg hnotmem] at h1
          rw [h1, lookupA_insertA_self, if_pos hvun, hd]
          rfl
        · have h1 := hchar w
          rw [unassigned_insert_erase vars hnd a v hh] at h1
          by_cases hw : w ∈ unassignedVars vars a
          · have hw2 : w ∈ (unassignedVars vars a).erase v :=
              (List.mem_erase_of_ne hwv).mpr hw
            rw [if_pos hw2] at h1
            rw [if_pos hw, h1]
          · have hw2 : w ∉ (unassignedVars vars a).erase v := fun hmm =>
              hw ((List.mem_erase_of_ne hwv).mp hmm)
            rw [if_neg hw2] at h1
            rw [if_neg hw, h1, lookupA_insertA_ne _ _ _ _ hwv]

/-- C5: on a problem with an empty constraint list, distinct variables and
non-empty starting domains, the search (with any positive propagation
fuel; recursion fuel `|variables| + 1` suffices) returns the assignment
mapping every variable to the first value of its starting domain, and the
node-expansion counter finishes at `|variables| + 1`. -/
theorem claim_C5_no_constraints (p : Problem) (pfuel : Nat) (hp : 0 < pfuel)
    (hcs : p.constraints = []) (hnd : p.vars.Nodup)
    (hdom : ∀ v ∈ p.vars, domOf p.domains v ≠ []) :
    ∃ s, backtracking_search pfuel (p.vars.length + 1) p =
        some (.ok (.sol s, p.domains, p.vars.length + 1)) ∧
      ∀ v ∈ p.vars, lookupA s v = (domOf p.domains v).head? := by
  obtain ⟨vars, doms, cs⟩ := p
  dsimp only at hcs hnd hdom ⊢
  subst hcs
  have h0 : unassignedVars vars [] = vars := unassigned_of_empty vars
  obtain ⟨s, hs, hchar⟩ := rb_no_cs vars doms hnd hdom pfuel hp
    vars.length [] 0 (by rw [h0])
  refine ⟨s, ?_, ?_⟩
  · unfold backtracking_search
    try dsimp only
    rw [hs]
    have harith : 0 + vars.length + 1 = vars.length + 1 := by omega
    rw [harith]
  · intro v hv
    have h1 := hchar v
    rw [h0] at h1
    rw [h1, if_pos hv]

/-- Witness for C5: a concrete two-variable constraint-free problem. -/
theorem claim_C5_witness :
    ∃ s, backtracking_search 1
        ((⟨["a", "b"], [("a", [.int 7, .int 8]), ("b", [.str "u"])], []⟩ :
          Problem).vars.length + 1)
        ⟨["a", "b"], [("a", [.int 7, .int 8]), ("b", [.str "u"])], []⟩ =
        some (.ok (.sol s,
          (⟨["a", "b"], [("a", [.int 7, .int 8]), ("b", [.str "u"])], []⟩ :
            Problem).domains,
          (⟨["a", "b"], [("a", [.int 7, .int 8]), ("b", [.str "u"])], []⟩ :
            Problem).vars.length + 1)) ∧
      ∀ v ∈ (⟨["a", "b"], [("a", [.int 7, .int 8]), ("b", [.str "u"])], []⟩ :
          Problem).vars,
        lookupA s v = (domOf (⟨["a", "b"],
          [("a", [.int 7, .int 8]), ("b", [.str "u"])], []⟩ :
            Problem).domains v).head? :=
  claim_C5_no_constraints
    ⟨["a", "b"], [("a", [.int 7, .int 8]), ("b", [.str "u"])], []⟩ 1
    (by decide) rfl (by decide) (by decide)

theorem mapM_domains_g (g : List PyVal → List PyVal) :
    ∀ doms : List (String × List PyVal),
    (∀ kv ∈ doms, kv.2.mapM json_val = some (g kv.2)) →
    doms.mapM (fun kv => do
      let l ← kv.2.mapM json_val
      pure (kv.1, l)) = some (doms.map (fun kv => (kv.1, g kv.2))) := by
  intro doms
  induction doms with
  | nil => intro _; rfl
  | cons kv rest ih =>
    intro h
    have hkv := h kv (List.mem_cons_self kv rest)
    have hrest := ih (fun d hd => h d (List.mem_cons_of_mem _ hd))
    rw [List.mapM_cons, hkv, hrest]
    rfl

theorem mapM_json_str (l : List PyVal) (h : ∀ v ∈ l, ∃ s, v = .str s) :
    l.mapM json_val = some l := by
  induction l with
  | nil => rfl
  | cons v rest ih =>
    obtain ⟨s, rfl⟩ := h v (List.mem_cons_self v rest)
    have hrest := ih (fun w hw => h w (List.mem_cons_of_mem _ hw))
    rw [List.mapM_cons, hrest]
    rfl

theorem mapM_json_pairs (l : List PyVal)
    (h : ∀ v ∈ l, ∃ a b, v = .intPair a b) :
    l.mapM json_val = some (l.map jsonified) := by
  induction l with
  | nil => rfl
  | cons v rest ih =>
    obtain ⟨a, b, rfl⟩ := h v (List.mem_cons_self v rest)
    have hrest := ih (fun w hw => h w (List.mem_cons_of_mem _ hw))
    rw [List.mapM_cons, hrest]
    rfl

theorem save_binary_str :
    ∀ cs : List Constraint,
    (∀ c ∈ cs, (∃ t, c.type = some t) ∧ (∃ s, c.variable1 = some (.str s)) ∧
      (∃ s, c.variable2 = some (.str s))) →
    (save_constraints_binary cs).isSome = true := by
  intro cs
  induction cs with
  | nil => intro _; rfl
  | cons c rest ih =>
    intro h
    obtain ⟨⟨t, ht⟩, ⟨s1, h1⟩, ⟨s2, h2⟩⟩ := h c (List.mem_cons_self c rest)
    have hrest := ih (fun d hd => h d (List.mem_cons_of_mem _ hd))
    obtain ⟨tail, htail⟩ := Option.isSome_iff_exists.mp hrest
    show (save_constraints_binary (c :: rest)).isSome = true
    unfold save_constraints_binary
    rw [ht, h1, h2]
    show (Option.bind (save_constraints_binary rest) _).isSome = true
    rw [htail]
    rfl

theorem pyListEq_head_false (f : PyVal → PyVal → Bool) (v w : PyVal)
    (l1 l2 : List PyVal) (h : f v w = false) :
    pyListEq f (v :: l1) (w :: l2) = false := by
  unfold pyListEq
  rw [List.zip_cons_cons, List.all_cons, h]
  simp

theorem dictEq_head_false {α : Type} (f : α → α → Bool) (k : String) (d : α)
    (rest d2 : List (String × α))
    (h : (match lookupA d2 k with
      | some w => f d w
      | none => false) = false) :
    dictEq f ((k, d) :: rest) d2 = false := by
  unfold dictEq
  rw [List.all_cons]
  dsimp only
  rw [h]
  simp

theorem map_coloring_roundtrip_fails (n : Nat) :
    round_trip_ok (some (map_coloring_problem n)) = false := by
  have hstr : ∀ kv ∈ (map_coloring_problem n).domains,
      kv.2.mapM json_val = some kv.2 := by
    intro kv hkv
    apply mapM_json_str
    intro v hv
    simp only [map_coloring_problem, List.mem_map] at hkv
    obtain ⟨region, _, rfl⟩ := hkv
    simp only [List.mem_map] at hv
    obtain ⟨i, _, rfl⟩ := hv
    exact ⟨_, rfl⟩
  have hmapM := mapM_domains_g id (map_coloring_problem n).domains
    (by simpa using hstr)
  have hid : (map_coloring_problem n).domains.map
      (fun kv => (kv.1, id kv.2)) = (map_coloring_problem n).domains := by
    simp
  rw [hid] at hmapM
  have hveq : (map_coloring_problem n).vars = (map_coloring_problem 0).vars :=
    rfl
  have hFm : ¬ ("F" ∈ (map_coloring_problem n).vars) := by
    rw [hveq]
    decide
  have hsc : save_constraints_binary (map_coloring_problem n).constraints =
      some mc_saved_constraints := rfl
  have hsave : save_problem (map_coloring_problem n) =
      some ⟨(map_coloring_problem n).vars, (map_coloring_problem n).domains,
        mc_saved_constraints⟩ := by
    unfold save_problem
    rw [hmapM]
    simp [hFm, hsc]
  have hrt : round_trip (map_coloring_problem n) =
      some ⟨(map_coloring_problem n).vars, (map_coloring_problem n).domains,
        mc_saved_constraints⟩ := by
    unfold round_trip
    rw [hsave]
    rfl
  show round_trip_ok (some (map_coloring_problem n)) = false
  unfold round_trip_ok
  dsimp only
  rw [hrt]
  dsimp only
  unfold problemPyEq
  have hceq : (map_coloring_problem n).constraints =
      (map_coloring_problem 0).constraints := rfl
  have hclist : pyListEq constraintPyEq (map_coloring_problem n).constraints
      mc_saved_constraints = false := by
    rw [hceq]
    decide
  rw [hclist]
  simp

theorem queens_roundtrip_fails (m : Nat) :
    round_trip_ok (some (n_queens_problem (m + 1))) = false := by
  have hdomsP : (n_queens_problem (m + 1)).domains =
      ((List.range (m + 1)).map (fun i => "Q[" ++ toString (i + 1) ++ "]")).map
        (fun q => (q, (List.range (m + 1)).flatMap (fun row =>
          (List.range (m + 1)).map (fun col =>
            PyVal.intPair (Int.ofNat row) (Int.ofNat col))))) := rfl
  have hvals : ∀ kv ∈ (n_queens_problem (m + 1)).domains, ∀ v ∈ kv.2,
      ∃ a b, v = PyVal.intPair a b := by
    intro kv hkv v hv
    rw [hdomsP] at hkv
    obtain ⟨q, _, rfl⟩ := List.mem_map.mp hkv
    simp only [List.mem_flatMap, List.mem_map] at hv
    obtain ⟨row, _, col, _, rfl⟩ := hv
    exact ⟨row, col, rfl⟩
  have hmapM := mapM_domains_g (fun l => l.map jsonified)
    (n_queens_problem (m + 1)).domains
    (fun kv hkv => mapM_json_pairs kv.2 (hvals kv hkv))
  have hcstr : ∀ c ∈ (n_queens_problem (m + 1)).constraints,
      (∃ t, c.type = some t) ∧ (∃ s, c.variable1 = some (.str s)) ∧
        (∃ s, c.variable2 = some (.str s)) := by
    intro c hc
    have hc2 : c ∈ (List.range (m + 1)).flatMap (fun i =>
        (List.range' (i + 1) ((m + 1) - (i + 1))).flatMap (fun j =>
          [{ type := some "row-different",
             variable1 := some (.str ("Q" ++ toString (i + 1))),
             variable2 := some (.str ("Q" ++ toString (j + 1))) },
           { type := some "column-different",
             variable1 := some (.str ("Q" ++ toString (i + 1))),
             variable2 := some (.str ("Q" ++ toString (j + 1))) },
           { type := some "diagonal-different",
             variable1 := some (.str ("Q" ++ toString (i + 1))),
             variable2 := some (.str ("Q" ++ toString (j + 1))) }])) := hc
    simp only [List.mem_flatMap, List.mem_cons, List.mem_singleton,
      List.not_mem_nil, or_false] at hc2
    obtain ⟨i, _, j, _, hc3⟩ := hc2
    rcases hc3 with rfl | rfl | rfl
    · exact ⟨⟨_, rfl⟩, ⟨_, rfl⟩, ⟨_, rfl⟩⟩
    · exact ⟨⟨_, rfl⟩, ⟨_, rfl⟩, ⟨_, rfl⟩⟩
    · exact ⟨⟨_, rfl⟩, ⟨_, rfl⟩, ⟨_, rfl⟩⟩
  obtain ⟨csX, hcsX⟩ := Option.isSome_iff_exists.mp
    (save_binary_str (n_queens_problem (m + 1)).constraints hcstr)
  have hFq : ¬ ("F" ∈ (n_queens_problem (m + 1)).vars) := by
    intro hm
    have hm2 : "F" ∈ (List.range (m + 1)).map
        (fun i => "Q[" ++ toString (i + 1) ++ "]") := hm
    simp only [List.mem_map] at hm2
    obtain ⟨i, _, heq⟩ := hm2
    have hlen := congrArg String.length heq
    rw [String.length_append, String.length_append,
      show ("Q[" : String).length = 2 from rfl,
      show ("]" : String).length = 1 from rfl,
      show ("F" : String).length = 1 from rfl] at hlen
    omega
  have hsave : save_problem (n_queens_problem (m + 1)) =
      some ⟨(n_queens_problem (m + 1)).vars,
        (n_queens_problem (m + 1)).domains.map
          (fun kv => (kv.1, kv.2.map jsonified)), csX⟩ := by
    unfold save_problem
    rw [hmapM]
    simp [hFq, hcsX]
  have hrt : round_trip (n_queens_problem (m + 1)) =
      some ⟨(n_queens_problem (m + 1)).vars,
        (n_queens_problem (m + 1)).domains.map
          (fun kv => (kv.1, kv.2.map jsonified)), csX⟩ := by
    unfold round_trip
    rw [hsave]
    rfl
  have hdne : (n_queens_problem (m + 1)).domains ≠ [] := by
    rw [hdomsP]
    simp
  obtain ⟨kv0, dTail, hsplit⟩ := List.exists_cons_of_ne_nil hdne
  obtain ⟨k0, g0⟩ := kv0
  have hg0mem : (k0, g0) ∈ (n_queens_problem (m + 1)).domains := by
    rw [hsplit]
    exact List.mem_cons_self _ _
  have hgne : g0 ≠ [] := by
    rw [hdomsP] at hg0mem
    obtain ⟨q, _, heq⟩ := List.mem_map.mp hg0mem
    have hg0 : g0 = (List.range (m + 1)).flatMap (fun row =>
        (List.range (m + 1)).map (fun col =>
          PyVal.intPair (Int.ofNat row) (Int.ofNat col))) :=
      (congrArg Prod.snd heq).symm
    rw [hg0]
    intro hnil
    have hpmem : PyVal.intPair 0 0 ∈ (List.range (m + 1)).flatMap (fun row =>
        (List.range (m + 1)).map (fun col =>
          PyVal.intPair (Int.ofNat row) (Int.ofNat col))) := by
      simp only [List.mem_flatMap, List.mem_map]
      exact ⟨0, by simp, 0, by simp, rfl⟩
    rw [hnil] at hpmem
    exact absurd hpmem (List.not_mem_nil _)
  obtain ⟨v0, gTail, hgsplit⟩ := List.exists_cons_of_ne_nil hgne
  obtain ⟨a, b, rfl⟩ : ∃ a b, v0 = PyVal.intPair a b :=
    hvals (k0, g0) hg0mem v0 (by rw [hgsplit]; exact List.mem_cons_self _ _)
  have hdict : dictEq (pyListEq pyEq) (n_queens_problem (m + 1)).domains
      ((n_queens_problem (m + 1)).domains.map
        (fun kv => (kv.1, kv.2.map jsonified))) = false := by
    rw [hsplit, List.map_cons]
    apply dictEq_head_false
    dsimp only
    have hlk : lookupA ((k0, g0.map jsonified) ::
        dTail.map (fun kv => (kv.1, kv.2.map jsonified))) k0 =
        some (g0.map jsonified) := by
      simp [lookupA]
    rw [hlk]
    rw [hgsplit, List.map_cons]
    exact pyListEq_head_false pyEq _ _ _ _ rfl
  unfold round_trip_ok
  dsimp only
  rw [hrt]
  dsimp only
  unfold problemPyEq
  dsimp only
  rw [hdict]
  simp

/-- C7 amended: saving then loading reproduces a Python-equal triple for
the cryptarithmetic builder's problems (all four supported sizes) and for
the degenerate 0-queens problem, whose triple is entirely empty; for every
`n ≥ 1` the N-queens problem loads back unequal (its tuple board positions
become JSON lists, and `list` explodes its string variable references),
and for every color count the map-coloring problem loads back unequal (its
set-valued variable references come back as lists). -/
theorem claim_C7_amended_roundtrip :
    (round_trip_ok (cryptarithmethic_problem 0) = true ∧
     round_trip_ok (cryptarithmethic_problem 1) = true ∧
     round_trip_ok (cryptarithmethic_problem 2) = true ∧
     round_trip_ok (cryptarithmethic_problem 3) = true) ∧
    round_trip_ok (some (n_queens_problem 0)) = true ∧
    (∀ m : Nat, round_trip_ok (some (n_queens_problem (m + 1))) = false) ∧
    (∀ n : Nat, round_trip_ok (some (map_coloring_problem n)) = false) :=
  ⟨⟨by decide, by decide, by decide, by decide⟩, by decide,
    queens_roundtrip_fails, map_coloring_roundtrip_fails⟩
